import Mathlib

/-!
Verification of the `UserDataETL` pipeline (`inforce_data_enj.py`).

The pipeline is three sequential steps over in-memory data:
`generate_csv` (Generator), `transform_data` (Transformer) and
`load_to_postgresql` (Loader).  Strings are modelled as `List Char`,
the intermediate CSV files as a header plus a list of typed rows, the
Faker library as an oracle function, and the PostgreSQL table as an
explicit state value with a surrogate-key counter.  Database errors are
modelled by a fault oracle saying which of the loader's operations
raises.
-/

namespace UserDataETL

/-- Calendar date (the value produced by `pandas .dt.date`). -/
structure Date where
  year : Nat
  month : Nat
  day : Nat
  deriving DecidableEq

/-- Time of day carried by the generator's `"%Y-%m-%d %H:%M:%S"` timestamps. -/
structure Time where
  hour : Nat
  minute : Nat
  second : Nat
  deriving DecidableEq

/-- A timestamp `"YYYY-MM-DD HH:MM:SS"`: a calendar date plus a time of day. -/
structure Timestamp where
  date : Date
  time : Time
  deriving DecidableEq

/-! ## Email validation (`is_valid_email`, source lines 61-72)

The source checks `re.match(r'^[a-zA-Z0-9_.+-]+@[a-zA-Z0-9-]+\.[a-zA-Z0-9-.]+$', email)`.
The three character classes: -/

/-- Characters matched by the class `[a-zA-Z0-9_.+-]` (local part). -/
def localChar (c : Char) : Bool :=
  c.isAlpha || c.isDigit || c = '_' || c = '.' || c = '+' || c = '-'

/-- Characters matched by the class `[a-zA-Z0-9-]` (host label before the dot). -/
def hostChar (c : Char) : Bool :=
  c.isAlpha || c.isDigit || c = '-'

/-- Characters matched by the class `[a-zA-Z0-9-.]` (tail after the first dot). -/
def tldChar (c : Char) : Bool :=
  c.isAlpha || c.isDigit || c = '-' || c = '.'

/-- Split a list at the first occurrence of `sep`: `some (before, after)`,
or `none` when `sep` does not occur. -/
def splitAtChar (sep : Char) : List Char → Option (List Char × List Char)
  | [] => none
  | c :: cs =>
    if c = sep then some ([], cs)
    else (splitAtChar sep cs).map (fun p => (c :: p.1, p.2))

/-- Decision procedure for the anchored regex
`^[a-zA-Z0-9_.+-]+@[a-zA-Z0-9-]+\.[a-zA-Z0-9-.]+$` against the whole string.
Since `@` occurs in no character class, a match must split the string at its
first (and only) `@`; since `[a-zA-Z0-9-]` excludes `.`, the literal `\.`
must consume the first `.` after the `@`.  `coreMatch_iff_specPattern` below
proves this procedure equivalent to the declarative decomposition. -/
def coreMatch (s : List Char) : Bool :=
  match splitAtChar '@' s with
  | none => false
  | some (a, d) =>
    (!a.isEmpty) && a.all localChar &&
      (match splitAtChar '.' d with
       | none => false
       | some (b, c) =>
         (!b.isEmpty) && b.all hostChar && (!c.isEmpty) && c.all tldChar)

/-- Embedding of `is_valid_email` (source lines 61-72).  Python's `$` in default mode
matches at the end of the string and also immediately before a newline that
ends the string, so `re.match(pattern, s)` succeeds exactly when the regex
matches all of `s`, or all of `s` minus a single terminal newline. -/
def is_valid_email (email : List Char) : Bool :=
  coreMatch email ||
    (match email.getLast? with
     | some c => c = '\n' && coreMatch email.dropLast
     | none => false)

/-- Embedding of `extract_domain` (source lines 74-84): `email.split('@')[-1]` when `'@' in
email`, else `None`.  `split('@')[-1]` is the suffix of `email` after its last
`@`, i.e. the reversal of the longest `@`-free prefix of the reversed string. -/
def extract_domain (email : List Char) : Option (List Char) :=
  if email.contains '@' then
    some ((email.reverse.takeWhile (fun c => c ≠ '@')).reverse)
  else none

/-! ## Records and intermediate files -/

/-- A row of the Generator's file `fake_data.csv`. -/
structure UserRecord where
  user_id : Nat
  name : List Char
  email : List Char
  signup_date : Timestamp
  deriving DecidableEq

/-- A row after line 99 (`signup_date` converted to a calendar date),
before the domain column is added. -/
structure DatedRecord where
  user_id : Nat
  name : List Char
  email : List Char
  signup_date : Date
  deriving DecidableEq

/-- A row of the Transformer's file `transformed_users_data.csv`. -/
structure TransformedRecord where
  user_id : Nat
  name : List Char
  email : List Char
  signup_date : Date
  domain : Option (List Char)
  deriving DecidableEq

/-- A tabular intermediate file: a header row of column names and typed rows. -/
structure CsvFile (α : Type) where
  header : List String
  rows : List α
  deriving DecidableEq

/-- Output of one Faker draw: a synthetic name, email and signup timestamp.
Faker's successive draws are modelled as an oracle indexed by the row number. -/
structure FakeProfile where
  name : List Char
  email : List Char
  signup_date : Timestamp
  deriving DecidableEq

/-- Embedding of `generate_csv` (source lines 37-59): header row
`user_id,name,email,signup_date`, then one row per `i` in `1..num_records`
with `user_id = i` and Faker-drawn fields.  The `strftime`/CSV serialisation
of the timestamp is modelled by carrying the `Timestamp` value itself. -/
def generate_csv (num_records : Nat) (fake : Nat → FakeProfile) : CsvFile UserRecord :=
  { header := ["user_id", "name", "email", "signup_date"],
    rows := (List.range' 1 num_records).map (fun i =>
      ⟨i, (fake i).name, (fake i).email, (fake i).signup_date⟩) }

/-! ## `transform_data` (source lines 86-111), as its three dataframe steps -/

/-- Line 99: `data['signup_date'] = pd.to_datetime(data['signup_date']).dt.date`. -/
def convertDates (rows : List UserRecord) : List DatedRecord :=
  rows.map (fun r => ⟨r.user_id, r.name, r.email, r.signup_date.date⟩)

/-- Line 102: `data = data[data['email'].apply(self.is_valid_email)]`. -/
def filterValidEmails (rows : List DatedRecord) : List DatedRecord :=
  rows.filter (fun r => is_valid_email r.email)

/-- Line 105: `data['domain'] = data['email'].apply(self.extract_domain)`. -/
def addDomain (rows : List DatedRecord) : List TransformedRecord :=
  rows.map (fun r => ⟨r.user_id, r.name, r.email, r.signup_date, extract_domain r.email⟩)

/-- Embedding of `transform_data`: date conversion, then the email filter, then the
domain column. -/
def transform_data (rows : List UserRecord) : List TransformedRecord :=
  addDomain (filterValidEmails (convertDates rows))

/-- Line 108: `data.to_csv(...)` writes the dataframe columns in order
`user_id,name,email,signup_date,domain`. -/
def transformFile (rows : List UserRecord) : CsvFile TransformedRecord :=
  { header := ["user_id", "name", "email", "signup_date", "domain"],
    rows := transform_data rows }

/-- The image of one surviving input row in the Transformer's output. -/
def transformOne (r : UserRecord) : TransformedRecord :=
  ⟨r.user_id, r.name, r.email, r.signup_date.date, extract_domain r.email⟩

/-- The spec's validation pattern, stated declaratively from its words:
one-or-more characters of `[letters, digits, _, ., +, -]`, then `@`, then
one-or-more of `[letters, digits, -]`, then `.`, then one-or-more of
`[letters, digits, -, .]`, covering the whole string. -/
def specPattern (e : List Char) : Prop :=
  ∃ a b c : List Char,
    e = a ++ '@' :: (b ++ '.' :: c) ∧
    a ≠ [] ∧ (∀ x ∈ a, localChar x = true) ∧
    b ≠ [] ∧ (∀ x ∈ b, hostChar x = true) ∧
    c ≠ [] ∧ (∀ x ∈ c, tldChar x = true)

/-- What `re.match` with this pattern actually accepts: the pattern over the
whole string, or over the whole string minus a single terminal newline
(Python's `$` in default mode also matches just before a newline that ends
the string). -/
def pythonAcceptedEmail (e : List Char) : Prop :=
  specPattern e ∨ ∃ t, e = t ++ ['\n'] ∧ specPattern t

/-! ## The Loader (`load_to_postgresql`, source lines 113-184)

The destination is modelled as an optional `users` table: `none` while the
table does not exist.  A table holds its rows plus the next value of the
`SERIAL` surrogate-key sequence.  Database-layer failures are injected by a
fault oracle `err` saying which of the loader's operations raises; the real
loader wraps every operation in one `try`/`except` that prints the error and
returns, so the model returns the committed table state together with the
reported error (`none` when no operation raised). -/

/-- A persisted row of the `users` table: surrogate `user_id SERIAL`,
`name`, `email`, `signup_date`.  There is no `domain` column. -/
structure DbRow where
  user_id : Nat
  name : List Char
  email : List Char
  signup_date : Date
  deriving DecidableEq

/-- The `users` table: rows plus the next surrogate key of its sequence. -/
structure DbTable where
  rows : List DbRow
  nextKey : Nat
  deriving DecidableEq

/-- A freshly created table: no rows, sequence at 1. -/
def emptyTable : DbTable := ⟨[], 1⟩

/-- Step `CREATE TABLE IF NOT EXISTS users ...` (lines 143-151): a no-op when the
table exists, otherwise a fresh empty table. -/
def createTableIfNotExists : Option DbTable → DbTable
  | none => emptyTable
  | some t => t

/-- Step `TRUNCATE TABLE users RESTART IDENTITY` (line 155): all rows removed and
the surrogate-key sequence reset, so the next inserted row gets key 1. -/
def truncateRestartIdentity (_ : DbTable) : DbTable := emptyTable

/-- One `INSERT INTO users (name, email, signup_date) VALUES (%s, %s, %s)`:
the row receives the next surrogate key; `domain` and the file's `user_id`
are not part of the statement. -/
def insertRow (t : DbTable) (r : TransformedRecord) : DbTable :=
  ⟨t.rows ++ [⟨t.nextKey, r.name, r.email, r.signup_date⟩], t.nextKey + 1⟩

/-- The fallible operations of the loader, in the order the code runs them.
`commitCreate`, `commitTruncate` and `commitInsert` are the three
`conn.commit()` calls; `readInput` is the `pd.read_csv` of the transformed
file; `insert` is the `executemany` batch. -/
inductive LoadStep where
  | connect
  | createTable
  | commitCreate
  | truncate
  | commitTruncate
  | readInput
  | insert
  | commitInsert
  deriving DecidableEq

/-- A database-layer error (`psycopg2.Error` or any other exception), carrying
the message that the `except` clause prints. -/
structure DbError where
  msg : List Char
  deriving DecidableEq

/-- The loader's operations in execution order. -/
def loadStepOrder : List LoadStep :=
  [.connect, .createTable, .commitCreate, .truncate, .commitTruncate,
   .readInput, .insert, .commitInsert]

/-- The fault-free oracle: no operation raises. -/
def noDbError : LoadStep → Option DbError := fun _ => none

/-- Embedding of `load_to_postgresql`: connect, create the table if missing, truncate it,
read the transformed file, batch-insert `(name, email, signup_date)` in file
order, committing after creation, truncation and insertion.  An error raised
by any operation is caught by the `try`/`except`, reported, and the function
returns; only changes committed before the error persist. -/
def load_to_postgresql (err : LoadStep → Option DbError) (db : Option DbTable)
    (input : List TransformedRecord) : Option DbTable × Option DbError :=
  match err .connect with
  | some e => (db, some e)
  | none =>
    match err .createTable with
    | some e => (db, some e)
    | none =>
      let created := createTableIfNotExists db
      match err .commitCreate with
      | some e => (db, some e)
      | none =>
        match err .truncate with
        | some e => (some created, some e)
        | none =>
          let truncated := truncateRestartIdentity created
          match err .commitTruncate with
          | some e => (some created, some e)
          | none =>
            match err .readInput with
            | some e => (some truncated, some e)
            | none =>
              match err .insert with
              | some e => (some truncated, some e)
              | none =>
                let inserted := input.foldl insertRow truncated
                match err .commitInsert with
                | some e => (some truncated, some e)
                | none => (some inserted, none)

/-- Row count of the destination table (0 when the table does not exist). -/
def tableRowCount : Option DbTable → Nat
  | none => 0
  | some t => t.rows.length

/-- The sequence of surrogate keys in the destination table, in row order. -/
def tableKeySeq : Option DbTable → List Nat
  | none => []
  | some t => t.rows.map DbRow.user_id

/-- A fault oracle where only the connection attempt raises. -/
def failingConnect : LoadStep → Option DbError :=
  fun s => if s = .connect then some ⟨"connection refused".toList⟩ else none

/-! ## Sample data for concrete instantiations -/

/-- A sample generated timestamp. -/
def sampleTimestamp : Timestamp := ⟨⟨2023, 4, 5⟩, ⟨10, 30, 59⟩⟩

/-- A generated record with a well-formed email. -/
def sampleValidUser : UserRecord :=
  ⟨1, "Ann Smith".toList, "ann@example.com".toList, sampleTimestamp⟩

/-- A generated record whose email ends in a newline: `re.match` accepts it
because `$` also matches just before a terminal newline. -/
def newlineEmailUser : UserRecord :=
  ⟨2, "Bob Jones".toList, "a@b.c\n".toList, sampleTimestamp⟩

/-! ## Lemmas about `splitAtChar` -/

theorem splitAtChar_some (sep : Char) :
    ∀ (s a d : List Char), splitAtChar sep s = some (a, d) →
      s = a ++ sep :: d ∧ sep ∉ a := by
  intro s
  induction s with
  | nil => intro a d h; simp [splitAtChar] at h
  | cons c cs ih =>
    intro a d h
    by_cases hc : c = sep
    · simp only [splitAtChar, if_pos hc, Option.some.injEq, Prod.mk.injEq] at h
      obtain ⟨rfl, rfl⟩ := h
      exact ⟨by rw [hc]; rfl, fun hmem => List.not_mem_nil sep hmem⟩
    · simp only [splitAtChar, if_neg hc, Option.map_eq_some'] at h
      obtain ⟨⟨a', d'⟩, hsplit, hpair⟩ := h
      cases hpair
      obtain ⟨hcs, hnot⟩ := ih a' d' hsplit
      refine ⟨by rw [hcs]; rfl, ?_⟩
      intro hmem
      rcases List.mem_cons.mp hmem with hx | hx
      · exact hc hx.symm
      · exact hnot hx

theorem splitAtChar_append (sep : Char) (a d : List Char) (ha : sep ∉ a) :
    splitAtChar sep (a ++ sep :: d) = some (a, d) := by
  induction a with
  | nil => simp [splitAtChar]
  | cons x a' ih =>
    have hx : x ≠ sep := fun h => ha (h ▸ List.mem_cons_self x a')
    have ha' : sep ∉ a' := fun h => ha (List.mem_cons_of_mem x h)
    simp [splitAtChar, if_neg hx, ih ha']

theorem splitAtChar_none (sep : Char) :
    ∀ s : List Char, splitAtChar sep s = none → sep ∉ s := by
  intro s
  induction s with
  | nil => intro _ h; exact List.not_mem_nil sep h
  | cons c cs ih =>
    intro h hmem
    by_cases hc : c = sep
    · simp [splitAtChar, hc] at h
    · simp only [splitAtChar, if_neg hc, Option.map_eq_none'] at h
      rcases List.mem_cons.mp hmem with hx | hx
      · exact hc hx.symm
      · exact ih h hx

/-! ## The validation pattern as the spec words it -/

/-- The deterministic regex decision procedure decides exactly the spec's
declarative pattern. -/
theorem coreMatch_iff_specPattern (s : List Char) :
    coreMatch s = true ↔ specPattern s := by
  constructor
  · intro h
    rcases hs : splitAtChar '@' s with _ | ⟨a, d⟩
    · simp [coreMatch, hs] at h
    · rcases hd : splitAtChar '.' d with _ | ⟨b, c⟩
      · simp [coreMatch, hs, hd] at h
      · simp only [coreMatch, hs, hd, Bool.and_eq_true, Bool.not_eq_true',
          List.isEmpty_eq_false, List.all_eq_true, and_assoc] at h
        obtain ⟨ha, hal, hb, hbl, hc, hcl⟩ := h
        obtain ⟨rfl, _⟩ := splitAtChar_some '@' s a d hs
        obtain ⟨rfl, _⟩ := splitAtChar_some '.' d b c hd
        exact ⟨a, b, c, rfl, ha, hal, hb, hbl, hc, hcl⟩
  · rintro ⟨a, b, c, rfl, ha, hal, hb, hbl, hc, hcl⟩
    have hna : '@' ∉ a := fun hm => absurd (hal '@' hm) (by decide)
    have hnb : '.' ∉ b := fun hm => absurd (hbl '.' hm) (by decide)
    simp only [coreMatch, splitAtChar_append '@' a (b ++ '.' :: c) hna,
      splitAtChar_append '.' b c hnb, Bool.and_eq_true, Bool.not_eq_true',
      List.isEmpty_eq_false, List.all_eq_true, and_assoc]
    exact ⟨ha, hal, hb, hbl, hc, hcl⟩

/-- Lemma: `is_valid_email` accepts exactly the strings of `pythonAcceptedEmail`. -/
theorem is_valid_email_iff (e : List Char) :
    is_valid_email e = true ↔ pythonAcceptedEmail e := by
  rcases hl : e.getLast? with _ | c
  · obtain rfl := List.getLast?_eq_none_iff.mp hl
    simp only [is_valid_email, hl, Bool.or_false]
    constructor
    · intro h
      exact absurd ((coreMatch_iff_specPattern []).mp h)
        (by rintro ⟨a, b, c, habs, -⟩; simp at habs)
    · rintro (h | ⟨t, ht, -⟩)
      · exact absurd h (by rintro ⟨a, b, c, habs, -⟩; simp at habs)
      · simp at ht
  · simp only [is_valid_email, hl, Bool.or_eq_true, Bool.and_eq_true,
      decide_eq_true_eq]
    constructor
    · rintro (h | ⟨rfl, h⟩)
      · exact Or.inl ((coreMatch_iff_specPattern e).mp h)
      · refine Or.inr ⟨e.dropLast, ?_, (coreMatch_iff_specPattern _).mp h⟩
        exact (List.dropLast_append_getLast? '\n' (Option.mem_def.mpr hl)).symm
    · rintro (h | ⟨t, rfl, ht⟩)
      · exact Or.inl ((coreMatch_iff_specPattern e).mpr h)
      · refine Or.inr ⟨?_, ?_⟩
        · exact Option.some.inj (hl.symm.trans (List.getLast?_concat t))
        · rw [List.dropLast_concat]
          exact (coreMatch_iff_specPattern t).mpr ht

/-! ## Structure of the Transformer's output -/

/-- Lemma: `transform_data` equals: filter the input rows on `is_valid_email`, then
map each surviving row to its transformed image.  In particular the output
lists the surviving records in their original relative order. -/
theorem transform_data_eq (rows : List UserRecord) :
    transform_data rows
      = (rows.filter (fun r => is_valid_email r.email)).map transformOne := by
  unfold transform_data addDomain filterValidEmails convertDates
  rw [List.filter_map, List.map_map]
  rfl

/-- Membership in `contains` for characters. -/
theorem contains_iff_mem (e : List Char) (c : Char) :
    e.contains c = true ↔ c ∈ e := by
  simp [List.contains, List.elem_iff]

/-- The first element surviving `dropWhile` fails the predicate. -/
theorem dropWhile_head_false (p : Char → Bool) :
    ∀ (l : List Char) (x : Char) (rest : List Char),
      l.dropWhile p = x :: rest → p x = false := by
  intro l
  induction l with
  | nil => intro x rest h; simp [List.dropWhile] at h
  | cons c cs ih =>
    intro x rest h
    by_cases hpc : p c = true
    · rw [List.dropWhile_cons_of_pos hpc] at h
      exact ih x rest h
    · rw [List.dropWhile_cons_of_neg hpc] at h
      obtain ⟨rfl, -⟩ := List.cons.inj h
      exact Bool.eq_false_iff.mpr hpc

/-- When `extract_domain` returns `some d`, `d` is the suffix of the email
after its last `@`: the email splits as `pre ++ '@' :: d` with no `@` in `d`. -/
theorem extract_domain_some_spec (e d : List Char)
    (h : extract_domain e = some d) :
    '@' ∉ d ∧ ∃ pre, e = pre ++ '@' :: d := by
  unfold extract_domain at h
  by_cases hc : e.contains '@' = true
  · rw [if_pos hc] at h
    obtain rfl : (e.reverse.takeWhile (fun c => c ≠ '@')).reverse = d :=
      Option.some.inj h
    have hmem : '@' ∈ e.reverse := List.mem_reverse.mpr ((contains_iff_mem e '@').mp hc)
    set p : Char → Bool := fun c => decide (c ≠ '@') with hp
    have hne : e.reverse.dropWhile p ≠ [] := by
      intro hnil
      have := List.dropWhile_eq_nil_iff.mp hnil '@' hmem
      simp [hp] at this
    constructor
    · intro hd
      have hx := List.mem_takeWhile_imp (List.mem_reverse.mp hd)
      simp [hp] at hx
    · have hsplit := List.takeWhile_append_dropWhile p e.reverse
      rcases hd : e.reverse.dropWhile p with _ | ⟨x, rest⟩
      · exact absurd hd hne
      · have hx : p x = false := dropWhile_head_false p e.reverse x rest hd
        have hxat : x = '@' := by simpa [hp] using hx
        subst hxat
        refine ⟨rest.reverse, ?_⟩
        have hrev : e.reverse = e.reverse.takeWhile p ++ '@' :: rest := by
          rw [← hd]; exact hsplit.symm
        calc e = e.reverse.reverse := (List.reverse_reverse e).symm
          _ = (e.reverse.takeWhile p ++ '@' :: rest).reverse := by rw [← hrev]
          _ = rest.reverse ++ '@' :: (e.reverse.takeWhile p).reverse := by
                simp [List.reverse_append]
  · rw [if_neg hc] at h
    exact absurd h (by simp)

/-- When `extract_domain` returns `none`, the email has no `@` at all. -/
theorem extract_domain_none_spec (e : List Char)
    (h : extract_domain e = none) : '@' ∉ e := by
  unfold extract_domain at h
  by_cases hc : e.contains '@' = true
  · rw [if_pos hc] at h; exact absurd h (by simp)
  · intro hmem
    exact hc ((contains_iff_mem e '@').mpr hmem)

/-- Lemma: `extract_domain` succeeds exactly on emails containing an `@`. -/
theorem extract_domain_isSome_iff (e : List Char) :
    (extract_domain e).isSome = true ↔ '@' ∈ e := by
  rw [← contains_iff_mem e '@']
  unfold extract_domain
  by_cases hc : e.contains '@' = true <;> simp [hc]

/-- A validated email always contains an `@`. -/
theorem specPattern_mem_at (e : List Char) (h : specPattern e) : '@' ∈ e := by
  obtain ⟨a, b, c, rfl, -⟩ := h
  exact List.mem_append_right a (List.mem_cons_self '@' _)


/-- The loaded rows: appending via `foldl insertRow` pairs consecutive
surrogate keys from the sequence with the input records in file order. -/
theorem foldl_insertRow_spec :
    ∀ (input : List TransformedRecord) (t : DbTable),
      (input.foldl insertRow t).rows
          = t.rows ++ List.zipWith (fun k r => DbRow.mk k r.name r.email r.signup_date)
              (List.range' t.nextKey input.length) input
        ∧ (input.foldl insertRow t).nextKey = t.nextKey + input.length := by
  intro input
  induction input with
  | nil => intro t; simp
  | cons r rs ih =>
    intro t
    obtain ⟨hrows, hkey⟩ := ih (insertRow t r)
    constructor
    · rw [List.foldl_cons, hrows]
      simp only [insertRow, List.range'_succ, List.length_cons, List.zipWith_cons_cons,
        List.append_assoc, List.cons_append, List.nil_append]
    · rw [List.foldl_cons, hkey]
      simp only [insertRow, List.length_cons]
      omega

/-- With no injected fault, the loader's result does not depend on the prior
table state at all: the table ends as a fresh truncate-then-insert of the
input, with no reported error. -/
theorem load_noDbError_eq (db : Option DbTable) (input : List TransformedRecord) :
    load_to_postgresql noDbError db input
      = (some (input.foldl insertRow emptyTable), none) := by
  cases db <;> rfl

/-- Surrogate keys of a zipped insert batch are exactly the key list. -/
theorem map_userid_zipWith :
    ∀ (ks : List Nat) (rs : List TransformedRecord), ks.length = rs.length →
      (List.zipWith (fun k r => DbRow.mk k r.name r.email r.signup_date) ks rs).map
          DbRow.user_id = ks := by
  intro ks
  induction ks with
  | nil => intro rs _; simp
  | cons k ks ih =>
    intro rs h
    cases rs with
    | nil => simp at h
    | cons r rs =>
      simp only [List.length_cons, Nat.succ.injEq] at h
      simp [List.zipWith_cons_cons, ih rs h]

/-- Persisted columns of a zipped insert batch are the input's
`(name, email, signup_date)` triples, in order. -/
theorem map_triple_zipWith :
    ∀ (ks : List Nat) (rs : List TransformedRecord), ks.length = rs.length →
      (List.zipWith (fun k r => DbRow.mk k r.name r.email r.signup_date) ks rs).map
          (fun r => (r.name, r.email, r.signup_date))
        = rs.map (fun r => (r.name, r.email, r.signup_date)) := by
  intro ks
  induction ks with
  | nil => intro rs h; rw [List.length_nil] at h; cases rs with
    | nil => simp
    | cons r rs => simp at h
  | cons k ks ih =>
    intro rs h
    cases rs with
    | nil => simp at h
    | cons r rs =>
      simp only [List.length_cons, Nat.succ.injEq] at h
      simp [List.zipWith_cons_cons, ih rs h]

/-- Membership in the Transformer's output: exactly the images of input rows
whose email passes `is_valid_email`. -/
theorem mem_transform_data (rows : List UserRecord) (t : TransformedRecord) :
    t ∈ transform_data rows
      ↔ ∃ r, r ∈ rows ∧ is_valid_email r.email = true ∧ t = transformOne r := by
  rw [transform_data_eq]
  constructor
  · intro h
    obtain ⟨r, hr, himg⟩ := List.mem_map.mp h
    obtain ⟨hmem, hval⟩ := List.mem_filter.mp hr
    exact ⟨r, hmem, by simpa using hval, himg.symm⟩
  · rintro ⟨r, hmem, hval, rfl⟩
    exact List.mem_map.mpr ⟨r, List.mem_filter.mpr ⟨hmem, by simpa using hval⟩, rfl⟩

/-- The transformed image determines the original email, so membership of an
input row's image depends only on that row's email validity. -/
theorem transformOne_mem_transform_data (rows : List UserRecord) (r : UserRecord)
    (hr : r ∈ rows) :
    transformOne r ∈ transform_data rows ↔ is_valid_email r.email = true := by
  constructor
  · intro h
    obtain ⟨r', _, hval, himg⟩ := (mem_transform_data rows (transformOne r)).mp h
    have hemail : r.email = r'.email := congrArg TransformedRecord.email himg
    rw [hemail]
    exact hval
  · intro hval
    exact (mem_transform_data rows (transformOne r)).mpr ⟨r, hr, hval, rfl⟩

/-! ## Claims -/

/-- C1 (counterexample): the claim "a record is retained iff its email
matches the validation pattern" fails as stated: the record with email
`"a@b.c\n"` is retained by `transform_data` although its email does not
match the spec's pattern (the terminal newline is in none of the character
classes).  Python's `re.match` accepts it because `$` also matches just
before a newline that ends the string. -/
theorem transform_retains_record_outside_spec_pattern :
    transformOne newlineEmailUser ∈ transform_data [newlineEmailUser]
      ∧ ¬ specPattern newlineEmailUser.email :=
  ⟨by decide, fun h =>
    absurd ((coreMatch_iff_specPattern newlineEmailUser.email).mpr h) (by decide)⟩

/-- C1 (amended): a record of the Transformer's input is retained in the
Transformer's output if and only if its email matches the validation
pattern, or is such a match followed by a single terminal newline (which
Python's `$` anchor also accepts); any other record is dropped entirely. -/
theorem transform_retains_iff_email_matches (rows : List UserRecord)
    (r : UserRecord) (hr : r ∈ rows) :
    transformOne r ∈ transform_data rows ↔ pythonAcceptedEmail r.email :=
  (transformOne_mem_transform_data rows r hr).trans (is_valid_email_iff r.email)

/-- C1 (witness): the amended retention criterion instantiated on a
one-record input with a well-formed email. -/
theorem transform_retains_iff_email_matches_witness :
    transformOne sampleValidUser ∈ transform_data [sampleValidUser]
      ↔ pythonAcceptedEmail sampleValidUser.email :=
  transform_retains_iff_email_matches [sampleValidUser] sampleValidUser (by decide)

/-- C2: for every record in the Transformer's output, `domain` is everything
after the last `@` of `email` (the email splits as `pre ++ '@' :: d` with no
`@` left in `d`); when the email has no `@` the domain is absent, and
conversely. -/
theorem transform_domain_after_last_at (rows : List UserRecord)
    (t : TransformedRecord) (ht : t ∈ transform_data rows) :
    (∀ d, t.domain = some d → ('@' ∉ d ∧ ∃ pre, t.email = pre ++ '@' :: d))
      ∧ (t.domain = none → '@' ∉ t.email)
      ∧ ('@' ∉ t.email → t.domain = none) := by
  obtain ⟨r, -, -, rfl⟩ := (mem_transform_data rows t).mp ht
  refine ⟨fun d hd => extract_domain_some_spec r.email d hd,
    fun hd => extract_domain_none_spec r.email hd, fun hmem => ?_⟩
  have : ¬ (extract_domain r.email).isSome = true :=
    fun hs => hmem ((extract_domain_isSome_iff r.email).mp hs)
  exact Option.not_isSome_iff_eq_none.mp this

/-- C2 (witness): the domain law instantiated on a one-record input. -/
theorem transform_domain_after_last_at_witness :
    (∀ d, (transformOne sampleValidUser).domain = some d →
        ('@' ∉ d ∧ ∃ pre, (transformOne sampleValidUser).email = pre ++ '@' :: d))
      ∧ ((transformOne sampleValidUser).domain = none →
          '@' ∉ (transformOne sampleValidUser).email)
      ∧ ('@' ∉ (transformOne sampleValidUser).email →
          (transformOne sampleValidUser).domain = none) :=
  transform_domain_after_last_at [sampleValidUser] (transformOne sampleValidUser)
    (by decide)

/-- C3: for every target count `N ≥ 0` and every Faker oracle, the
Generator's file has the header `user_id,name,email,signup_date` and exactly
`N` records whose `user_id` values are `1..N` in increasing order. -/
theorem generate_csv_shape (N : Nat) (fake : Nat → FakeProfile) :
    (generate_csv N fake).header = ["user_id", "name", "email", "signup_date"]
      ∧ (generate_csv N fake).rows.length = N
      ∧ (generate_csv N fake).rows.map UserRecord.user_id = List.range' 1 N := by
  refine ⟨rfl, ?_, ?_⟩
  · simp [generate_csv]
  · simp only [generate_csv, List.map_map]
    have : (UserRecord.user_id ∘ fun i =>
        UserRecord.mk i (fake i).name (fake i).email (fake i).signup_date)
        = fun i => i := rfl
    rw [this, List.map_id']

/-- C9: every email accepted by `is_valid_email` contains an `@`, hence
`extract_domain` on a validated email always yields a present domain. -/
theorem valid_email_has_at_and_domain (e : List Char)
    (h : is_valid_email e = true) :
    '@' ∈ e ∧ (extract_domain e).isSome = true := by
  have hmem : '@' ∈ e := by
    rcases (is_valid_email_iff e).mp h with hp | ⟨t, rfl, hp⟩
    · exact specPattern_mem_at e hp
    · exact List.mem_append_left ['\n'] (specPattern_mem_at t hp)
  exact ⟨hmem, (extract_domain_isSome_iff e).mpr hmem⟩

/-- C9 (witness): instantiated on a concrete validated email. -/
theorem valid_email_has_at_and_domain_witness :
    is_valid_email ("ann@example.com".toList) = true
      ∧ ('@' ∈ ("ann@example.com".toList)
          ∧ (extract_domain ("ann@example.com".toList)).isSome = true) :=
  ⟨by decide, valid_email_has_at_and_domain ("ann@example.com".toList) (by decide)⟩

/-- C4: loading into an initially empty destination table yields one row per
record of the Transformer's output file, in file order: the persisted
`(name, email, signup_date)` triples are the file's triples, the surrogate
keys are exactly `1..count` in order, and rows carry no `domain` column (the
`DbRow` shape has none) and not the file's `user_id` (keys come from the
sequence alone). -/
theorem load_into_empty_table_spec (input : List TransformedRecord) :
    ∃ t : DbTable,
      load_to_postgresql noDbError (some emptyTable) input = (some t, none)
        ∧ t.rows.length = input.length
        ∧ t.rows.map DbRow.user_id = List.range' 1 input.length
        ∧ t.rows.map (fun r => (r.name, r.email, r.signup_date))
            = input.map (fun r => (r.name, r.email, r.signup_date)) := by
  obtain ⟨hrows, -⟩ := foldl_insertRow_spec input emptyTable
  have hlen : (List.range' 1 input.length).length = input.length := by simp
  refine ⟨input.foldl insertRow emptyTable,
    load_noDbError_eq (some emptyTable) input, ?_, ?_, ?_⟩
  · rw [hrows]
    simp [emptyTable, hlen]
  · rw [hrows]
    simpa [emptyTable] using map_userid_zipWith (List.range' 1 input.length) input hlen
  · rw [hrows]
    simpa [emptyTable] using map_triple_zipWith (List.range' 1 input.length) input hlen

/-- C5: running the loader twice in succession over the same input leaves the
destination with the same row count and the same surrogate-key sequence after
each run: truncate-then-insert is idempotent in count and key sequence. -/
theorem load_twice_idempotent (db : Option DbTable) (input : List TransformedRecord) :
    tableRowCount (load_to_postgresql noDbError
          (load_to_postgresql noDbError db input).fst input).fst
        = tableRowCount (load_to_postgresql noDbError db input).fst
      ∧ tableKeySeq (load_to_postgresql noDbError
            (load_to_postgresql noDbError db input).fst input).fst
          = tableKeySeq (load_to_postgresql noDbError db input).fst := by
  rw [load_noDbError_eq db input, load_noDbError_eq]
  exact ⟨rfl, rfl⟩

/-- C6: the Transformer's output file has header
`user_id,name,email,signup_date,domain`, contains exactly the surviving
records in the input's relative order (it is the filtered input, mapped), and
its `user_id` values all come from the input. -/
theorem transform_file_shape (rows : List UserRecord) :
    (transformFile rows).header = ["user_id", "name", "email", "signup_date", "domain"]
      ∧ (transformFile rows).rows
          = (rows.filter (fun r => is_valid_email r.email)).map transformOne
      ∧ ∀ t ∈ (transformFile rows).rows, t.user_id ∈ rows.map UserRecord.user_id := by
  refine ⟨rfl, transform_data_eq rows, fun t ht => ?_⟩
  obtain ⟨r, hr, -, rfl⟩ := (mem_transform_data rows t).mp ht
  exact List.mem_map.mpr ⟨r, hr, rfl⟩

/-- C6 (witness): the output-file shape instantiated on a one-record input. -/
theorem transform_file_shape_witness :
    (transformFile [sampleValidUser]).header
        = ["user_id", "name", "email", "signup_date", "domain"]
      ∧ (transformFile [sampleValidUser]).rows
          = ([sampleValidUser].filter (fun r => is_valid_email r.email)).map transformOne
      ∧ ∀ t ∈ (transformFile [sampleValidUser]).rows,
          t.user_id ∈ [sampleValidUser].map UserRecord.user_id :=
  transform_file_shape [sampleValidUser]

/-- C7: every record of the Transformer's output carries as `signup_date`
exactly the calendar-date component of some input record's timestamp; the
time of day is discarded (the output field's type has no time component). -/
theorem transform_signup_date_day_only (rows : List UserRecord)
    (t : TransformedRecord) (ht : t ∈ transform_data rows) :
    ∃ r, r ∈ rows ∧ t.signup_date = r.signup_date.date := by
  obtain ⟨r, hr, -, rfl⟩ := (mem_transform_data rows t).mp ht
  exact ⟨r, hr, rfl⟩

/-- C7 (witness): instantiated on a one-record input whose timestamp has a
non-trivial time of day. -/
theorem transform_signup_date_day_only_witness :
    ∃ r, r ∈ [sampleValidUser]
      ∧ (transformOne sampleValidUser).signup_date = r.signup_date.date :=
  transform_signup_date_day_only [sampleValidUser] (transformOne sampleValidUser)
    (by decide)

/-- C10: every record surviving into the Transformer's output keeps its
`user_id`, `name` and `email` unchanged from the Generator's record; only
`signup_date` is modified (to its date component) and only `domain` is
added. -/
theorem transform_preserves_other_fields (rows : List UserRecord)
    (t : TransformedRecord) (ht : t ∈ transform_data rows) :
    ∃ r, r ∈ rows ∧ t.user_id = r.user_id ∧ t.name = r.name ∧ t.email = r.email
      ∧ t.signup_date = r.signup_date.date ∧ t.domain = extract_domain r.email := by
  obtain ⟨r, hr, -, rfl⟩ := (mem_transform_data rows t).mp ht
  exact ⟨r, hr, rfl, rfl, rfl, rfl, rfl⟩

/-- C10 (witness): instantiated on a one-record input. -/
theorem transform_preserves_other_fields_witness :
    ∃ r, r ∈ [sampleValidUser]
      ∧ (transformOne sampleValidUser).user_id = r.user_id
      ∧ (transformOne sampleValidUser).name = r.name
      ∧ (transformOne sampleValidUser).email = r.email
      ∧ (transformOne sampleValidUser).signup_date = r.signup_date.date
      ∧ (transformOne sampleValidUser).domain = extract_domain r.email :=
  transform_preserves_other_fields [sampleValidUser] (transformOne sampleValidUser)
    (by decide)

/-- C8: for every fault oracle, the loader returns a `(state, report)` pair —
never propagating an exception — whose report is exactly the first error
raised in step order (connect, create table, commit, truncate, commit, read
input, insert, commit); in particular whenever any step raises, the call
still returns normally and reports an error. -/
theorem load_catches_and_reports_db_errors (err : LoadStep → Option DbError)
    (db : Option DbTable) (input : List TransformedRecord) :
    (load_to_postgresql err db input).snd = loadStepOrder.findSome? err
      ∧ (∀ s e, err s = some e →
          ∃ st rep, load_to_postgresql err db input = (st, some rep)) := by
  have hfirst : (load_to_postgresql err db input).snd = loadStepOrder.findSome? err := by
    cases h1 : err .connect with
    | some e => simp [load_to_postgresql, loadStepOrder, List.findSome?_cons, h1]
    | none =>
      cases h2 : err .createTable with
      | some e => simp [load_to_postgresql, loadStepOrder, List.findSome?_cons, h1, h2]
      | none =>
        cases h3 : err .commitCreate with
        | some e =>
          simp [load_to_postgresql, loadStepOrder, List.findSome?_cons, h1, h2, h3]
        | none =>
          cases h4 : err .truncate with
          | some e =>
            simp [load_to_postgresql, loadStepOrder, List.findSome?_cons, h1, h2, h3, h4]
          | none =>
            cases h5 : err .commitTruncate with
            | some e =>
              simp [load_to_postgresql, loadStepOrder, List.findSome?_cons,
                h1, h2, h3, h4, h5]
            | none =>
              cases h6 : err .readInput with
              | some e =>
                simp [load_to_postgresql, loadStepOrder, List.findSome?_cons,
                  h1, h2, h3, h4, h5, h6]
              | none =>
                cases h7 : err .insert with
                | some e =>
                  simp [load_to_postgresql, loadStepOrder, List.findSome?_cons,
                    h1, h2, h3, h4, h5, h6, h7]
                | none =>
                  cases h8 : err .commitInsert with
                  | some e =>
                    simp [load_to_postgresql, loadStepOrder, List.findSome?_cons,
                      h1, h2, h3, h4, h5, h6, h7, h8]
                  | none =>
                    simp [load_to_postgresql, loadStepOrder, List.findSome?_cons,
                      h1, h2, h3, h4, h5, h6, h7, h8]
  refine ⟨hfirst, fun s e hs => ?_⟩
  have hmem : s ∈ loadStepOrder := by cases s <;> simp [loadStepOrder]
  rcases hfs : loadStepOrder.findSome? err with _ | rep
  · have hnone : err s = none := List.findSome?_eq_none_iff.mp hfs s hmem
    rw [hnone] at hs
    exact absurd hs (by simp)
  · refine ⟨(load_to_postgresql err db input).fst, rep, ?_⟩
    have hsnd : (load_to_postgresql err db input).snd = some rep := by
      rw [hfirst, hfs]
    rw [← hsnd]

/-- C8 (witness): a failing connection attempt is reported, not raised. -/
theorem load_catches_and_reports_db_errors_witness :
    ((load_to_postgresql failingConnect (some emptyTable) []).snd
        = loadStepOrder.findSome? failingConnect)
      ∧ (∀ s e, failingConnect s = some e →
          ∃ st rep, load_to_postgresql failingConnect (some emptyTable) [] = (st, some rep)) :=
  load_catches_and_reports_db_errors failingConnect (some emptyTable) []

end UserDataETL
